import Mathlib

/-!
Verification of the PE introspection engine in src/windows/pe/mod.rs.

The embedding models the parser over an abstract memory: the backing byte
region is represented by total read oracles (one per struct shape the source
reinterprets raw addresses as) plus a finite byte list for null-terminated
strings.  Machine integers are Nat; u32 additions that can wrap in the source
are taken modulo 2^32.  Fallible operations return an explicit result type
that distinguishes a found value, a definite not-found outcome, and an abort
(a Rust panic or out-of-bounds slice access).
-/

/-- Result of an operation in the model: a definite value, a definite
not-found or format-error outcome (the source returns None or Err), or an
abort (a Rust panic: unwrap of None, integer underflow, or an out-of-bounds
slice index). -/
inductive PERes (α : Type) where
  | ok (a : α)
  | err
  | panic
deriving DecidableEq, Repr

/-- Sequencing that mirrors the question-mark operator of the source:
not-found and abort both short-circuit. -/
def PERes.bind {α β : Type} : PERes α → (α → PERes β) → PERes β
  | .ok a, f => f a
  | .err, _ => .err
  | .panic, _ => .panic

/-- Model of Rust Option.unwrap: a missing value aborts. -/
def PERes.unwrapPE {α : Type} : PERes α → PERes α
  | .ok a => .ok a
  | .err => .panic
  | .panic => .panic

/-- Section descriptor; the fields read by the translator
(IMAGE_SECTION_HEADER in the source). -/
structure IMAGE_SECTION_HEADER where
  VirtualAddress : Nat
  SizeOfRawData : Nat
  PointerToRawData : Nat
deriving DecidableEq, Repr

/-- One slot of the 16-entry data-directory array. -/
structure IMAGE_DATA_DIRECTORY where
  VirtualAddress : Nat
  Size : Nat
deriving DecidableEq, Repr

/-- Export directory fields read by the resolver (IMAGE_EXPORT_DIRECTORY). -/
structure IMAGE_EXPORT_DIRECTORY where
  Base : Nat
  NumberOfFunctions : Nat
  NumberOfNames : Nat
  AddressOfFunctions : Nat
  AddressOfNames : Nat
  AddressOfNameOrdinals : Nat
deriving DecidableEq, Repr

/-- Resource directory table header: counts of name-keyed and id-keyed
entries (RESOURCE_DIRECTORY_TABLE). -/
structure RESOURCE_DIRECTORY_TABLE where
  NumberOfNameEntries : Nat
  NumberOfIDEntries : Nat
deriving DecidableEq, Repr

/-- One resource directory entry (IMAGE_RESOURCE_DIRECTORY_ENTRY). -/
structure IMAGE_RESOURCE_DIRECTORY_ENTRY where
  Id : Nat
  OffsetToData : Nat
deriving DecidableEq, Repr

/-- Resource leaf: data offset and size (RESOURCE_DATA_ENTRY). -/
structure RESOURCE_DATA_ENTRY where
  DataRVA : Nat
  DataSize : Nat
deriving DecidableEq, Repr

/-- The backing image.  Header fields reached through the staged
navigation of the source (dos header, nt headers, optional header with its
32/64-bit dispatch) are exposed directly; reads the source performs by
reinterpreting a raw address as a struct are total oracle functions from the
absolute address to the struct value, and string bytes come from a finite
byte list (reads past its end give 0). -/
structure PEImage where
  baseAddress : Nat
  e_magic : Nat
  ntSignature : Nat
  machine : Nat
  numberOfRvaAndSizes : Nat
  dataDirectory : Nat → IMAGE_DATA_DIRECTORY
  sectionAt : Nat → IMAGE_SECTION_HEADER
  importNameAt : Nat → Nat
  exportDirAt : Nat → IMAGE_EXPORT_DIRECTORY
  u32At : Nat → Nat
  u16At : Nat → Nat
  bytes : List Nat
  tableAt : Nat → RESOURCE_DIRECTORY_TABLE
  resEntryAt : Nat → IMAGE_RESOURCE_DIRECTORY_ENTRY
  resDataEntryAt : Nat → RESOURCE_DATA_ENTRY

/-- DOS header signature constant (published image format). -/
def IMAGE_DOS_SIGNATURE : Nat := 0x5A4D

/-- NT header signature constant (published image format). -/
def IMAGE_NT_SIGNATURE : Nat := 0x4550

/-- Data-directory slot of the export directory. -/
def IMAGE_DIRECTORY_ENTRY_EXPORT : Nat := 0

/-- Data-directory slot of the import directory. -/
def IMAGE_DIRECTORY_ENTRY_IMPORT : Nat := 1

/-- Data-directory slot of the resource directory. -/
def IMAGE_DIRECTORY_ENTRY_RESOURCE : Nat := 2

/-- Modelled from the spec: the raw-data resource type id searched for at
the type level of the resource walk (RT_RCDATA in the missing consts
module; value from the published format). -/
def RT_RCDATA : Nat := 10

/-- Modelled from the spec: the engineering maximum capping section-table
scans (MAX_SECTION_HEADER_LEN in the missing ntdll module; its concrete
value is not in src, and no claim depends on it). -/
def MAX_SECTION_HEADER_LEN : Nat := 100

/-- Size in bytes of IMAGE_IMPORT_DESCRIPTOR (published layout; the struct
itself lives in the missing ntdll module). -/
def IMPORT_DESCRIPTOR_SIZE : Nat := 20

/-- Size in bytes of the resource directory table header (published
layout). -/
def RESOURCE_DIRECTORY_TABLE_SIZE : Nat := 16

/-- Size in bytes of one resource directory entry (published layout). -/
def RESOURCE_DIRECTORY_ENTRY_SIZE : Nat := 8

/-- Modulus of u32 arithmetic. -/
def U32_MOD : Nat := 4294967296

/-- Wrapping u32 addition, the release-mode semantics of + on u32. -/
def u32add (a b : Nat) : Nat := (a + b) % U32_MOD

/-- Modelled from the spec: null-terminated byte-length scanning (strlen of
the missing util module); the name starting at addr runs to the first zero
byte. -/
def readName (img : PEImage) (addr : Nat) : List Nat :=
  (img.bytes.drop addr).takeWhile (fun b => b ≠ 0)

/-- Rust slice is_ascii: every byte is 7-bit. -/
def isAsciiBytes (l : List Nat) : Bool := l.all (fun b => b < 128)

/-- Modelled from the spec: byte-exact comparison (compare_strs_as_bytes of
the missing util module; the flag selects case-sensitive comparison and the
source always passes true). -/
def compare_strs_as_bytes (a b : List Nat) (_caseSensitive : Bool) : Bool :=
  a == b

/-- Pointwise XOR of two byte lists, truncating to the shorter. -/
def xorBytes (a b : List Nat) : List Nat := List.zipWith Nat.xor a b

/-- Modelled from the spec: comparison of a masked pattern against a
candidate name under a caller-supplied key (compare_xor_str_and_str_bytes of
the missing util module): unmask the pattern with the key and compare
byte-exactly. -/
def compare_xor_str_and_str_bytes (xorName name key : List Nat) : Bool :=
  xorBytes xorName key == name

/-- The section-header slice exposed by PE::section_headers: the table
region truncated to min(NumberOfRvaAndSizes, MAX_SECTION_HEADER_LEN)
entries. -/
def section_headers (img : PEImage) : List IMAGE_SECTION_HEADER :=
  (List.range (min img.numberOfRvaAndSizes MAX_SECTION_HEADER_LEN)).map img.sectionAt

/-- The scan loop of PE::rva_to_foa: first section whose virtual range
contains the offset, with the wrapping u32 sum of the source. -/
def rvaLoop (rva : Nat) : List IMAGE_SECTION_HEADER → Option Nat
  | [] => none
  | s :: rest =>
    if s.VirtualAddress ≤ rva ∧ rva ≤ u32add s.VirtualAddress s.SizeOfRawData then
      some (u32add s.PointerToRawData (rva - s.VirtualAddress))
    else rvaLoop rva rest

/-- PE::rva_to_foa.  Indexing section_headers-0 of an empty table is a Rust
panic, modelled as the abort outcome. -/
def rva_to_foa (img : PEImage) (rva : Nat) : PERes Nat :=
  match section_headers img with
  | [] => .panic
  | s0 :: rest =>
    if rva < s0.PointerToRawData then .ok rva
    else
      match rvaLoop rva (s0 :: rest) with
      | some foa => .ok foa
      | none => .err

/-- The recurring pattern of the source: leave a virtual offset untouched on
a mapped image, translate it through rva_to_foa otherwise (with the
question-mark propagation of the caller). -/
def translate_offset (img : PEImage) (mapped : Bool) (off : Nat) : PERes Nat :=
  if mapped then .ok off else rva_to_foa img off

/-- The descriptor loop of PE::check_mapped: walk the import descriptors,
translating each module-name offset with unwrap_or_default, and classify the
image as mapped on the first non-ASCII name.  The first argument of the
recursion is the current index, the second the remaining count. -/
def checkMappedLoop (img : PEImage) (tblAddr : Nat) : Nat → Nat → PERes Bool
  | _, 0 => .ok false
  | i, k + 1 =>
    match rva_to_foa img (img.importNameAt (tblAddr + IMPORT_DESCRIPTOR_SIZE * i)) with
    | .panic => .panic
    | .ok f =>
      if ¬ isAsciiBytes (readName img (img.baseAddress + f)) then .ok true
      else checkMappedLoop img tblAddr (i + 1) k
    | .err =>
      if ¬ isAsciiBytes (readName img (img.baseAddress + 0)) then .ok true
      else checkMappedLoop img tblAddr (i + 1) k

/-- PE::check_mapped.  The source unwraps the translation of the import
directory offset (a None aborts), computes length = Size / 20, and builds a
slice of length - 1 descriptors: length = 0 underflows usize, an abort. -/
def check_mapped (img : PEImage) : PERes Bool :=
  let idir := img.dataDirectory IMAGE_DIRECTORY_ENTRY_IMPORT
  PERes.bind (PERes.unwrapPE (rva_to_foa img idir.VirtualAddress)) (fun foa =>
    let tblAddr := img.baseAddress + foa
    let length := idir.Size / IMPORT_DESCRIPTOR_SIZE
    if length = 0 then .panic
    else checkMappedLoop img tblAddr 0 (length - 1))

/-- The two facts a constructed handle fixes at construction. -/
structure PEHandle where
  is_64bit : Bool
  is_mapped : Bool
deriving DecidableEq, Repr

/-- PE::from_address (reached from open via from_slice): the signature check
of the source rejects only when the DOS signature and the NT signature are
both invalid, then derives the bit width from the machine field and runs the
mapped-state detection. -/
def from_address (img : PEImage) : PERes PEHandle :=
  if img.e_magic ≠ IMAGE_DOS_SIGNATURE ∧ img.ntSignature ≠ IMAGE_NT_SIGNATURE then
    .err
  else
    PERes.bind (check_mapped img) (fun m =>
      .ok { is_64bit := img.machine == 0x8664, is_mapped := m })

/-- Little-endian u32 read of the first four bytes of the caller-supplied
input buffer (the ordinal probe of the source reads four bytes
unconditionally; a shorter buffer over-reads in the source, modelled here as
zero bytes). -/
def leU32 (l : List Nat) : Nat :=
  l.getD 0 0 + 256 * l.getD 1 0 + 65536 * l.getD 2 0 + 16777216 * l.getD 3 0

/-- Little-endian u16 read of the first two bytes of the input buffer. -/
def leU16 (l : List Nat) : Nat :=
  l.getD 0 0 + 256 * l.getD 1 0

/-- Little-endian 4-byte encoding of an ordinal, as the callers of the
source build it with to_le_bytes. -/
def leBytes4 (m : Nat) : List Nat :=
  [m % 256, m / 256 % 256, m / 65536 % 256, m / 16777216 % 256]

/-- Indexing the function-address table slice of declared length nf: the
source builds the slice with that length, so an index past it is an
out-of-bounds slice access, an abort. -/
def eatLookup (img : PEImage) (eatAddr nf idx : Nat) : PERes Nat :=
  if idx < nf then .ok (img.u32At (eatAddr + 4 * idx)) else .panic

/-- The shared directory-location prefix of PE::get_export_rva and
PE::get_export_rva_xor_string: locate the export directory via its
data-directory slot (translated if unmapped), then the function-address
table (translated if unmapped); yields the directory and the absolute
address of the function-address table. -/
def locateExportDirectory (img : PEImage) (mapped : Bool) :
    PERes (IMAGE_EXPORT_DIRECTORY × Nat) :=
  let edir := img.dataDirectory IMAGE_DIRECTORY_ENTRY_EXPORT
  PERes.bind (translate_offset img mapped edir.VirtualAddress) (fun edOff =>
    let ed := img.exportDirAt (img.baseAddress + edOff)
    PERes.bind (translate_offset img mapped ed.AddressOfFunctions) (fun eatOff =>
      .ok (ed, img.baseAddress + eatOff)))

/-- The name-scan loop of PE::get_export_rva: for each index, read the name
table entry, translate it if unmapped, read the null-terminated candidate
and compare byte-exactly; on the first match translate the hint table
offset, read the 16-bit hint at the match index and look it up in the
function-address table.  First argument the current index, second the
remaining count. -/
def getExportRvaLoop (img : PEImage) (mapped : Bool) (ed : IMAGE_EXPORT_DIRECTORY)
    (eatAddr namesAddr : Nat) (export_name : List Nat) : Nat → Nat → PERes Nat
  | _, 0 => .err
  | i, k + 1 =>
    PERes.bind (translate_offset img mapped (img.u32At (namesAddr + 4 * i))) (fun strOff =>
      let name := readName img (img.baseAddress + strOff)
      if compare_strs_as_bytes export_name name true then
        PERes.bind (translate_offset img mapped ed.AddressOfNameOrdinals) (fun hintsOff =>
          eatLookup img eatAddr ed.NumberOfFunctions
            (img.u16At (img.baseAddress + hintsOff + 2 * i)))
      else getExportRvaLoop img mapped ed eatAddr namesAddr export_name (i + 1) k)

/-- PE::get_export_rva: locate the directory, probe the first four input
bytes; when the upper 16 bits are zero treat the input as a 16-bit ordinal,
bound-check it against the declared base and count and index the
function-address table directly; otherwise run the name scan. -/
def get_export_rva (img : PEImage) (mapped : Bool) (export_name : List Nat) : PERes Nat :=
  PERes.bind (locateExportDirectory img mapped) (fun p =>
    let ed := p.1
    let eatAddr := p.2
    let ordinal_test := leU32 export_name
    if ordinal_test / 65536 = 0 then
      let ordinal := leU16 export_name
      if ordinal < ed.Base ∨ u32add ed.Base ed.NumberOfFunctions ≤ ordinal then .err
      else eatLookup img eatAddr ed.NumberOfFunctions (ordinal - ed.Base)
    else
      PERes.bind (translate_offset img mapped ed.AddressOfNames) (fun namesOff =>
        getExportRvaLoop img mapped ed eatAddr (img.baseAddress + namesOff)
          export_name 0 ed.NumberOfNames))

/-- The scan loop of PE::get_export_rva_xor_string: identical walk to the
exact-name loop, with the candidate compared against the masked pattern
under the caller-supplied key. -/
def getExportRvaXorLoop (img : PEImage) (mapped : Bool) (ed : IMAGE_EXPORT_DIRECTORY)
    (eatAddr namesAddr : Nat) (xor_name key : List Nat) : Nat → Nat → PERes Nat
  | _, 0 => .err
  | i, k + 1 =>
    PERes.bind (translate_offset img mapped (img.u32At (namesAddr + 4 * i))) (fun strOff =>
      let name := readName img (img.baseAddress + strOff)
      if compare_xor_str_and_str_bytes xor_name name key then
        PERes.bind (translate_offset img mapped ed.AddressOfNameOrdinals) (fun hintsOff =>
          eatLookup img eatAddr ed.NumberOfFunctions
            (img.u16At (img.baseAddress + hintsOff + 2 * i)))
      else getExportRvaXorLoop img mapped ed eatAddr namesAddr xor_name key (i + 1) k)

/-- PE::get_export_rva_xor_string: locate the directory and run the masked
name scan; no ordinal branch exists on this path. -/
def get_export_rva_xor_string (img : PEImage) (mapped : Bool)
    (xor_name key : List Nat) : PERes Nat :=
  PERes.bind (locateExportDirectory img mapped) (fun p =>
    PERes.bind (translate_offset img mapped p.1.AddressOfNames) (fun namesOff =>
      getExportRvaXorLoop img mapped p.1 p.2 (img.baseAddress + namesOff)
        xor_name key 0 p.1.NumberOfNames))

/-- The scan loop of get_entry_offset_by_id: walk the id-keyed entries of a
directory table and yield the offset of the first entry matching the id.
First argument the current index, second the remaining count. -/
def getEntryByIdLoop (img : PEImage) (entriesAddr id : Nat) : Nat → Nat → Option Nat
  | _, 0 => none
  | i, k + 1 =>
    let e := img.resEntryAt (entriesAddr + RESOURCE_DIRECTORY_ENTRY_SIZE * i)
    if e.Id = id then some e.OffsetToData
    else getEntryByIdLoop img entriesAddr id (i + 1) k

/-- get_entry_offset_by_id: skip the name-keyed entries, then scan exactly
the declared number of id-keyed entries. -/
def get_entry_offset_by_id (img : PEImage) (tblAddr id : Nat) : Option Nat :=
  let tbl := img.tableAt tblAddr
  let entriesAddr := tblAddr + RESOURCE_DIRECTORY_TABLE_SIZE
    + RESOURCE_DIRECTORY_ENTRY_SIZE * tbl.NumberOfNameEntries
  getEntryByIdLoop img entriesAddr id 0 tbl.NumberOfIDEntries

/-- The scan loop of get_entry_offset_by_name: walk the name-keyed entries,
reading each candidate name at the table base plus the Id field, and yield
the offset of the first byte-equal name. -/
def getEntryByNameLoop (img : PEImage) (tblAddr entriesAddr : Nat)
    (name : List Nat) : Nat → Nat → Option Nat
  | _, 0 => none
  | i, k + 1 =>
    let e := img.resEntryAt (entriesAddr + RESOURCE_DIRECTORY_ENTRY_SIZE * i)
    if readName img (tblAddr + e.Id) = name then some e.OffsetToData
    else getEntryByNameLoop img tblAddr entriesAddr name (i + 1) k

/-- get_entry_offset_by_name: scan exactly the declared number of
name-keyed entries, which start right after the table header. -/
def get_entry_offset_by_name (img : PEImage) (tblAddr : Nat) (name : List Nat) : Option Nat :=
  let tbl := img.tableAt tblAddr
  let entriesAddr := tblAddr + RESOURCE_DIRECTORY_TABLE_SIZE
  getEntryByNameLoop img tblAddr entriesAddr name 0 tbl.NumberOfNameEntries

/-- get_resource_data_entry: three fixed levels.  Search the root table for
the raw-data type id and clear the top bit of the offset; search the located
subdirectory for the requested id and clear the top bit; then take the first
entry right after the language-level table header without consulting its
counts, and use its offset, unmasked, relative to the root.  Yields the
absolute address of the resource data entry (the reference the source
returns). -/
def get_resource_data_entry (img : PEImage) (rootAddr resource_id : Nat) : Option Nat :=
  (get_entry_offset_by_id img rootAddr RT_RCDATA).bind (fun o1 =>
    let o1m := Nat.land o1 0x7FFFFFFF
    (get_entry_offset_by_id img (rootAddr + o1m) resource_id).bind (fun o2 =>
      let o2m := Nat.land o2 0x7FFFFFFF
      let langEntry := img.resEntryAt (rootAddr + o2m + RESOURCE_DIRECTORY_TABLE_SIZE)
      some (rootAddr + langEntry.OffsetToData)))

/-- PE::get_pe_resource: locate the root resource directory via its
data-directory slot (translated if unmapped), walk the three levels, then
translate the data offset of the leaf if unmapped and return the byte range
as its absolute start address and size. -/
def get_pe_resource (img : PEImage) (mapped : Bool) (resource_id : Nat) :
    PERes (Nat × Nat) :=
  let rdir := img.dataDirectory IMAGE_DIRECTORY_ENTRY_RESOURCE
  PERes.bind (translate_offset img mapped rdir.VirtualAddress) (fun rootOff =>
    let rootAddr := img.baseAddress + rootOff
    match get_resource_data_entry img rootAddr resource_id with
    | none => .err
    | some entryAddr =>
      let e := img.resDataEntryAt entryAddr
      PERes.bind (translate_offset img mapped e.DataRVA) (fun dataOff =>
        .ok (img.baseAddress + dataOff, e.DataSize)))

/-- A well-formed template image: valid signatures, 64-bit machine id, a
section table of identical sections starting at file offset 1024, and an
import-directory slot sized for one descriptor so that the mapped-state
scan completes trivially. -/
def baseImg : PEImage where
  baseAddress := 0
  e_magic := IMAGE_DOS_SIGNATURE
  ntSignature := IMAGE_NT_SIGNATURE
  machine := 0x8664
  numberOfRvaAndSizes := 16
  dataDirectory := fun _ => ⟨0, 20⟩
  sectionAt := fun _ => ⟨4096, 4096, 1024⟩
  importNameAt := fun _ => 0
  exportDirAt := fun _ => ⟨0, 0, 0, 0, 0, 0⟩
  u32At := fun _ => 0
  u16At := fun _ => 0
  bytes := []
  tableAt := fun _ => ⟨0, 0⟩
  resEntryAt := fun _ => ⟨0, 0⟩
  resDataEntryAt := fun _ => ⟨0, 0⟩

/-- A signature-valid image whose section table is empty. -/
def imgEmptySections : PEImage := { baseImg with numberOfRvaAndSizes := 0 }

/-- A signature-valid image whose import data directory is absent
(size zero). -/
def imgAbsentImportDir : PEImage := { baseImg with dataDirectory := fun _ => ⟨0, 0⟩ }

/-- An image with a valid DOS signature and an invalid NT signature. -/
def imgBadNtSig : PEImage := { baseImg with ntSignature := 0 }

/-- An image with an invalid DOS signature and a valid NT signature. -/
def imgBadDosSig : PEImage := { baseImg with e_magic := 0 }

/-- A one-section image for exercising the translator. -/
def imgC3 : PEImage := { baseImg with numberOfRvaAndSizes := 1 }

/-- A small export directory: ordinal base 3, four function entries, two
names, tables at offsets 500, 600 and 700. -/
def edSmall : IMAGE_EXPORT_DIRECTORY := ⟨3, 4, 2, 500, 600, 700⟩

/-- A mapped-layout export image parametrised by the hint value at name
index 1: the directory sits at offset 100, the name table holds string
offsets 80 and 90, the byte region holds the name ABCD at offset 90, and
function-table entry 2 holds 999. -/
def exportImg (hint : Nat) : PEImage := { baseImg with
  dataDirectory := fun j => if j = 0 then ⟨100, 0⟩ else ⟨0, 20⟩,
  exportDirAt := fun a => if a = 100 then edSmall else ⟨0, 0, 0, 0, 0, 0⟩,
  u32At := fun a => if a = 600 then 80 else if a = 604 then 90 else if a = 508 then 999 else 0,
  u16At := fun a => if a = 702 then hint else 0,
  bytes := List.replicate 90 0 ++ [65, 66, 67, 68] }

/-- Export image used by the C4 witness. -/
def imgC4 : PEImage := exportImg 2

/-- Export image used by the C5 witness. -/
def imgC5 : PEImage := exportImg 2

/-- Export image used by the C6 witness. -/
def imgC6 : PEImage := exportImg 2

/-- Export image whose matched hint 9 exceeds the declared function count 4,
used by the C9 witness. -/
def imgC9 : PEImage := exportImg 9

/-- A mapped-layout resource image: root table at 4000 with one id entry for
the raw-data type (offset with the subdirectory bit set), an id subdirectory
at 4080 holding id 7, a language table at 4120 with zero declared entries
whose first entry slot points at a data entry of offset 300 and size 16. -/
def imgC8 : PEImage := { baseImg with
  dataDirectory := fun j => if j = 2 then ⟨4000, 100⟩ else ⟨0, 20⟩,
  tableAt := fun a => if a = 4000 then ⟨0, 1⟩ else if a = 4080 then ⟨0, 1⟩ else ⟨0, 0⟩,
  resEntryAt := fun a =>
    if a = 4016 then ⟨10, 2147483728⟩
    else if a = 4096 then ⟨7, 120⟩
    else if a = 4136 then ⟨0, 200⟩
    else ⟨0, 0⟩,
  resDataEntryAt := fun a => if a = 4200 then ⟨300, 16⟩ else ⟨0, 0⟩ }

/-- Like imgC8 but the first language-level entry carries an offset with the
subdirectory bit set, used by the C10 witness. -/
def imgC10 : PEImage := { imgC8 with
  resEntryAt := fun a =>
    if a = 4016 then ⟨10, 2147483728⟩
    else if a = 4096 then ⟨7, 120⟩
    else if a = 4136 then ⟨0, 2147483748⟩
    else ⟨0, 0⟩ }

/-- Declared byte extent of a resource directory table: its header followed
by its declared name-keyed and id-keyed entries. -/
def resourceTableExtent (t : RESOURCE_DIRECTORY_TABLE) : Nat :=
  RESOURCE_DIRECTORY_TABLE_SIZE
    + RESOURCE_DIRECTORY_ENTRY_SIZE * (t.NumberOfNameEntries + t.NumberOfIDEntries)

lemma u32add_eq_of_lt {a b : Nat} (h : a + b < U32_MOD) : u32add a b = a + b :=
  Nat.mod_eq_of_lt h

lemma find?_agree {α : Type} (p q : α → Bool) :
    ∀ l : List α, (∀ a ∈ l, p a = q a) → l.find? p = l.find? q := by
  intro l
  induction l with
  | nil => intro _; rfl
  | cons a rest ih =>
    intro h
    have ha := h a (List.mem_cons_self a rest)
    by_cases hpa : p a = true
    · rw [List.find?_cons_of_pos _ hpa, List.find?_cons_of_pos _ (ha ▸ hpa)]
    · have hqa : ¬ q a = true := fun hq => hpa (ha ▸ hq)
      rw [List.find?_cons_of_neg _ (by simpa using hpa),
        List.find?_cons_of_neg _ (by simpa using hqa)]
      exact ih (fun x hx => h x (List.mem_cons_of_mem a hx))

lemma rvaLoop_eq_find? (rva : Nat) :
    ∀ l : List IMAGE_SECTION_HEADER,
      rvaLoop rva l =
        (l.find? (fun s =>
            decide (s.VirtualAddress ≤ rva ∧ rva ≤ u32add s.VirtualAddress s.SizeOfRawData))).map
          (fun s => u32add s.PointerToRawData (rva - s.VirtualAddress)) := by
  intro l
  induction l with
  | nil => rfl
  | cons s rest ih =>
    unfold rvaLoop
    by_cases h : s.VirtualAddress ≤ rva ∧ rva ≤ u32add s.VirtualAddress s.SizeOfRawData
    · rw [if_pos h, List.find?_cons_of_pos _ (by simpa using h)]
      rfl
    · rw [if_neg h, List.find?_cons_of_neg _ (by simpa using h), ih]

/-- C1: the claim that no operation aborts fails on the code.  A
signature-valid image with an empty section table makes check_mapped (via
rva_to_foa indexing the first section of an empty slice) abort construction,
and a signature-valid image with an absent (size-zero) import directory
makes check_mapped underflow length - 1 and abort; in both cases open ends
in a panic instead of an Image or a format error. -/
theorem from_address_aborts_on_degenerate_images :
    from_address imgEmptySections = PERes.panic ∧
    from_address imgAbsentImportDir = PERes.panic := by
  constructor
  · decide
  · decide

/-- C2: the signature check of the source is inverted, so construction
succeeds on an image with exactly one valid signature: an image with a valid
DOS signature and an invalid NT signature, and one with an invalid DOS
signature and a valid NT signature, are both accepted instead of rejected
with a format error. -/
theorem from_address_accepts_single_bad_signature :
    from_address imgBadNtSig = PERes.ok ⟨true, false⟩ ∧
    imgBadNtSig.ntSignature ≠ IMAGE_NT_SIGNATURE ∧
    from_address imgBadDosSig = PERes.ok ⟨true, false⟩ ∧
    imgBadDosSig.e_magic ≠ IMAGE_DOS_SIGNATURE := by
  refine ⟨by decide, by decide, by decide, by decide⟩


lemma rva_to_foa_eq (img : PEImage) (v : Nat) (s0 : IMAGE_SECTION_HEADER)
    (rest : List IMAGE_SECTION_HEADER) (hsec : section_headers img = s0 :: rest) :
    rva_to_foa img v =
      if v < s0.PointerToRawData then PERes.ok v
      else
        match rvaLoop v (s0 :: rest) with
        | some foa => PERes.ok foa
        | none => PERes.err := by
  unfold rva_to_foa
  rw [hsec]

/-- C3: on every image with a non-empty section table and no u32 overflow in
the section fields, translate returns an offset below the first section file
pointer unchanged; otherwise it returns PointerToRawData plus the distance
into the first section whose closed virtual range contains the offset, taken
in declaration order, and reports not-found when no section range contains
the offset. -/
theorem rva_to_foa_spec (img : PEImage) (v : Nat) (s0 : IMAGE_SECTION_HEADER)
    (rest : List IMAGE_SECTION_HEADER)
    (hsec : section_headers img = s0 :: rest)
    (hbound : ∀ s ∈ section_headers img,
      s.VirtualAddress + s.SizeOfRawData < U32_MOD ∧
      s.PointerToRawData + s.SizeOfRawData < U32_MOD) :
    (v < s0.PointerToRawData → rva_to_foa img v = PERes.ok v) ∧
    (s0.PointerToRawData ≤ v →
      (∀ s ∈ section_headers img,
          ¬ (s.VirtualAddress ≤ v ∧ v ≤ s.VirtualAddress + s.SizeOfRawData)) →
        rva_to_foa img v = PERes.err) ∧
    (s0.PointerToRawData ≤ v → ∀ s,
      (section_headers img).find? (fun s =>
          decide (s.VirtualAddress ≤ v ∧ v ≤ s.VirtualAddress + s.SizeOfRawData)) = some s →
        rva_to_foa img v = PERes.ok (s.PointerToRawData + (v - s.VirtualAddress))) := by
  have hagree : ∀ s ∈ section_headers img,
      (fun s : IMAGE_SECTION_HEADER =>
        decide (s.VirtualAddress ≤ v ∧ v ≤ u32add s.VirtualAddress s.SizeOfRawData)) s =
      (fun s : IMAGE_SECTION_HEADER =>
        decide (s.VirtualAddress ≤ v ∧ v ≤ s.VirtualAddress + s.SizeOfRawData)) s := by
    intro s hs
    have := (hbound s hs).1
    simp only [u32add_eq_of_lt this]
  have hloop : rvaLoop v (section_headers img) =
      ((section_headers img).find? (fun s =>
          decide (s.VirtualAddress ≤ v ∧ v ≤ s.VirtualAddress + s.SizeOfRawData))).map
        (fun s => u32add s.PointerToRawData (v - s.VirtualAddress)) := by
    rw [rvaLoop_eq_find?, find?_agree _ _ _ hagree]
  rw [rva_to_foa_eq img v s0 rest hsec]
  rw [hsec] at hloop
  refine ⟨?_, ?_, ?_⟩
  · intro hlt
    rw [if_pos hlt]
  · intro hge hnone
    have hfind : (section_headers img).find? (fun s =>
        decide (s.VirtualAddress ≤ v ∧ v ≤ s.VirtualAddress + s.SizeOfRawData)) = none := by
      rw [List.find?_eq_none]
      intro s hs
      simpa using hnone s hs
    rw [hsec] at hfind
    rw [if_neg (by omega), hloop, hfind]
    rfl
  · intro hge s hfind
    have hmem : s ∈ section_headers img := List.mem_of_find?_eq_some hfind
    have hpred : s.VirtualAddress ≤ v ∧ v ≤ s.VirtualAddress + s.SizeOfRawData := by
      have := List.find?_some hfind
      simpa using this
    have hfoa : s.PointerToRawData + (v - s.VirtualAddress) < U32_MOD := by
      have h1 := (hbound s hmem).2
      omega
    rw [hsec] at hfind
    rw [if_neg (by omega), hloop, hfind]
    simp [u32add_eq_of_lt hfoa]

/-- Witness for C3 on a concrete one-section image: offset 4352 falls in the
section at virtual address 4096 with raw pointer 1024 and is translated to
1280, and the header-region offset 100 is returned unchanged. -/
theorem rva_to_foa_spec_witness :
    rva_to_foa imgC3 4352 = PERes.ok 1280 ∧ rva_to_foa imgC3 100 = PERes.ok 100 := by
  have h := rva_to_foa_spec imgC3 4352 ⟨4096, 4096, 1024⟩ [] (by decide) (by decide)
  have h2 := rva_to_foa_spec imgC3 100 ⟨4096, 4096, 1024⟩ [] (by decide) (by decide)
  exact ⟨h.2.2 (by decide) ⟨4096, 4096, 1024⟩ (by decide), h2.1 (by decide)⟩

lemma getEntryByIdLoop_eq (img : PEImage) (a id : Nat) :
    ∀ n i, getEntryByIdLoop img a id i n =
      (((List.range' i n).map (fun j =>
          img.resEntryAt (a + RESOURCE_DIRECTORY_ENTRY_SIZE * j))).find?
        (fun e => decide (e.Id = id))).map (fun e => e.OffsetToData) := by
  intro n
  induction n with
  | zero => intro i; rfl
  | succ n ih =>
    intro i
    rw [List.range'_succ]
    simp only [List.map_cons]
    unfold getEntryByIdLoop
    by_cases h : (img.resEntryAt (a + RESOURCE_DIRECTORY_ENTRY_SIZE * i)).Id = id
    · rw [if_pos h, List.find?_cons_of_pos _ (by simpa using h)]
      rfl
    · rw [if_neg h, List.find?_cons_of_neg _ (by simpa using h), ih]

lemma getEntryByNameLoop_eq (img : PEImage) (tblAddr a : Nat) (name : List Nat) :
    ∀ n i, getEntryByNameLoop img tblAddr a name i n =
      (((List.range' i n).map (fun j =>
          img.resEntryAt (a + RESOURCE_DIRECTORY_ENTRY_SIZE * j))).find?
        (fun e => decide (readName img (tblAddr + e.Id) = name))).map
        (fun e => e.OffsetToData) := by
  intro n
  induction n with
  | zero => intro i; rfl
  | succ n ih =>
    intro i
    rw [List.range'_succ]
    simp only [List.map_cons]
    unfold getEntryByNameLoop
    by_cases h : readName img (tblAddr + (img.resEntryAt (a + RESOURCE_DIRECTORY_ENTRY_SIZE * i)).Id) = name
    · rw [if_pos h, List.find?_cons_of_pos _ (by simpa using h)]
      rfl
    · rw [if_neg h, List.find?_cons_of_neg _ (by simpa using h), ih]

/-- C7: every section-table traversal runs over the slice of exactly
min(declared count, MAX_SECTION_HEADER_LEN) entries, and each
resource-directory scan (id-keyed and name-keyed) is a first-match search
over exactly the declared number of entries of its kind, so no traversal
visits more than its declared, capped count even when the count field is
inflated. -/
theorem traversal_bounds (img : PEImage) (tblAddr id : Nat) (name : List Nat) :
    (section_headers img).length = min img.numberOfRvaAndSizes MAX_SECTION_HEADER_LEN ∧
    get_entry_offset_by_id img tblAddr id =
      (((List.range (img.tableAt tblAddr).NumberOfIDEntries).map (fun j =>
          img.resEntryAt (tblAddr + RESOURCE_DIRECTORY_TABLE_SIZE
            + RESOURCE_DIRECTORY_ENTRY_SIZE * (img.tableAt tblAddr).NumberOfNameEntries
            + RESOURCE_DIRECTORY_ENTRY_SIZE * j))).find?
        (fun e => decide (e.Id = id))).map (fun e => e.OffsetToData) ∧
    ((List.range (img.tableAt tblAddr).NumberOfIDEntries).map (fun j =>
        img.resEntryAt (tblAddr + RESOURCE_DIRECTORY_TABLE_SIZE
          + RESOURCE_DIRECTORY_ENTRY_SIZE * (img.tableAt tblAddr).NumberOfNameEntries
          + RESOURCE_DIRECTORY_ENTRY_SIZE * j))).length
      = (img.tableAt tblAddr).NumberOfIDEntries ∧
    get_entry_offset_by_name img tblAddr name =
      (((List.range (img.tableAt tblAddr).NumberOfNameEntries).map (fun j =>
          img.resEntryAt (tblAddr + RESOURCE_DIRECTORY_TABLE_SIZE
            + RESOURCE_DIRECTORY_ENTRY_SIZE * j))).find?
        (fun e => decide (readName img (tblAddr + e.Id) = name))).map
        (fun e => e.OffsetToData) ∧
    ((List.range (img.tableAt tblAddr).NumberOfNameEntries).map (fun j =>
        img.resEntryAt (tblAddr + RESOURCE_DIRECTORY_TABLE_SIZE
          + RESOURCE_DIRECTORY_ENTRY_SIZE * j))).length
      = (img.tableAt tblAddr).NumberOfNameEntries := by
  refine ⟨?_, ?_, ?_, ?_, ?_⟩
  · simp [section_headers]
  · unfold get_entry_offset_by_id
    rw [getEntryByIdLoop_eq, List.range_eq_range']
  · simp
  · unfold get_entry_offset_by_name
    rw [getEntryByNameLoop_eq, List.range_eq_range']
  · simp

lemma export_ordinal_branch (img : PEImage) (mapped : Bool) (name : List Nat)
    (ed : IMAGE_EXPORT_DIRECTORY) (eatAddr : Nat)
    (hloc : locateExportDirectory img mapped = PERes.ok (ed, eatAddr))
    (hp : leU32 name / 65536 = 0) :
    get_export_rva img mapped name =
      if leU16 name < ed.Base ∨ u32add ed.Base ed.NumberOfFunctions ≤ leU16 name then
        PERes.err
      else eatLookup img eatAddr ed.NumberOfFunctions (leU16 name - ed.Base) := by
  unfold get_export_rva
  rw [hloc]
  simp only [PERes.bind]
  rw [if_pos hp]

lemma export_name_branch (img : PEImage) (mapped : Bool) (name : List Nat)
    (ed : IMAGE_EXPORT_DIRECTORY) (eatAddr : Nat)
    (hloc : locateExportDirectory img mapped = PERes.ok (ed, eatAddr))
    (hp : leU32 name / 65536 ≠ 0) :
    get_export_rva img mapped name =
      PERes.bind (translate_offset img mapped ed.AddressOfNames) (fun namesOff =>
        getExportRvaLoop img mapped ed eatAddr (img.baseAddress + namesOff)
          name 0 ed.NumberOfNames) := by
  unfold get_export_rva
  rw [hloc]
  simp only [PERes.bind]
  rw [if_neg hp]

lemma getExportRvaLoop_skip (img : PEImage) (mapped : Bool) (ed : IMAGE_EXPORT_DIRECTORY)
    (eatAddr namesAddr : Nat) (n : List Nat) :
    ∀ m i r, (∀ j, j < m → ∃ f,
        translate_offset img mapped (img.u32At (namesAddr + 4 * (i + j))) = PERes.ok f ∧
        compare_strs_as_bytes n (readName img (img.baseAddress + f)) true = false) →
      getExportRvaLoop img mapped ed eatAddr namesAddr n i (m + r) =
      getExportRvaLoop img mapped ed eatAddr namesAddr n (i + m) r := by
  intro m
  induction m with
  | zero =>
    intro i r _
    rw [Nat.zero_add, Nat.add_zero]
  | succ m ih =>
    intro i r h
    obtain ⟨f, hf, hcmp⟩ := h 0 (Nat.succ_pos m)
    simp only [Nat.add_zero] at hf hcmp
    have hm : m + 1 + r = (m + r) + 1 := by omega
    rw [hm]
    have hstep : getExportRvaLoop img mapped ed eatAddr namesAddr n i ((m + r) + 1) =
        getExportRvaLoop img mapped ed eatAddr namesAddr n (i + 1) (m + r) := by
      simp only [getExportRvaLoop]
      rw [hf]
      simp only [PERes.bind, hcmp, Bool.false_eq_true, if_false]
    rw [hstep]
    have hshift : ∀ j, j < m → ∃ f,
        translate_offset img mapped (img.u32At (namesAddr + 4 * (i + 1 + j))) = PERes.ok f ∧
        compare_strs_as_bytes n (readName img (img.baseAddress + f)) true = false := by
      intro j hj
      rw [show i + 1 + j = i + (j + 1) from by omega]
      exact h (j + 1) (by omega)
    rw [ih (i + 1) r hshift, show i + 1 + m = i + (m + 1) from by omega]

lemma export_name_scan_result (img : PEImage) (mapped : Bool) (n : List Nat)
    (ed : IMAGE_EXPORT_DIRECTORY) (eatAddr namesOff hintsOff i fi : Nat)
    (hnames : translate_offset img mapped ed.AddressOfNames = PERes.ok namesOff)
    (hi : i < ed.NumberOfNames)
    (hpre : ∀ j, j < i → ∃ f,
      translate_offset img mapped
          (img.u32At (img.baseAddress + namesOff + 4 * j)) = PERes.ok f ∧
      compare_strs_as_bytes n (readName img (img.baseAddress + f)) true = false)
    (hstri : translate_offset img mapped
        (img.u32At (img.baseAddress + namesOff + 4 * i)) = PERes.ok fi)
    (hmatch : compare_strs_as_bytes n (readName img (img.baseAddress + fi)) true = true)
    (hhints : translate_offset img mapped ed.AddressOfNameOrdinals = PERes.ok hintsOff) :
    PERes.bind (translate_offset img mapped ed.AddressOfNames) (fun namesOff =>
      getExportRvaLoop img mapped ed eatAddr (img.baseAddress + namesOff) n 0
        ed.NumberOfNames) =
    eatLookup img eatAddr ed.NumberOfFunctions
      (img.u16At (img.baseAddress + hintsOff + 2 * i)) := by
  rw [hnames]
  simp only [PERes.bind]
  have hskip := getExportRvaLoop_skip img mapped ed eatAddr (img.baseAddress + namesOff) n
    i 0 (ed.NumberOfNames - i)
    (by
      intro j hj
      rw [Nat.zero_add]
      exact hpre j hj)
  rw [Nat.zero_add] at hskip
  rw [show ed.NumberOfNames = i + (ed.NumberOfNames - i) from by omega, hskip]
  rw [show ed.NumberOfNames - i = (ed.NumberOfNames - i - 1) + 1 from by omega]
  simp only [getExportRvaLoop]
  rw [hstri]
  simp only [PERes.bind, hmatch, if_true]
  rw [hhints]

/-- C4: when the export directory and function table are located, an input
whose 4-byte probe has zero upper 16 bits is treated as the 16-bit ordinal
of its first two bytes: out of the declared range it yields not-found, in
range it yields entry (ordinal - Base) of the function-address table; an
input with a non-zero upper probe half runs the name scan instead. -/
theorem get_export_rva_ordinal_spec (img : PEImage) (mapped : Bool) (name : List Nat)
    (ed : IMAGE_EXPORT_DIRECTORY) (eatAddr : Nat)
    (hloc : locateExportDirectory img mapped = PERes.ok (ed, eatAddr))
    (hnowrap : ed.Base + ed.NumberOfFunctions < U32_MOD) :
    (leU32 name / 65536 = 0 →
      ((leU16 name < ed.Base ∨ ed.Base + ed.NumberOfFunctions ≤ leU16 name) →
        get_export_rva img mapped name = PERes.err) ∧
      (ed.Base ≤ leU16 name → leU16 name < ed.Base + ed.NumberOfFunctions →
        get_export_rva img mapped name =
          PERes.ok (img.u32At (eatAddr + 4 * (leU16 name - ed.Base))))) ∧
    (leU32 name / 65536 ≠ 0 →
      get_export_rva img mapped name =
        PERes.bind (translate_offset img mapped ed.AddressOfNames) (fun namesOff =>
          getExportRvaLoop img mapped ed eatAddr (img.baseAddress + namesOff)
            name 0 ed.NumberOfNames)) := by
  have hadd : u32add ed.Base ed.NumberOfFunctions = ed.Base + ed.NumberOfFunctions :=
    u32add_eq_of_lt hnowrap
  constructor
  · intro hp
    rw [export_ordinal_branch img mapped name ed eatAddr hloc hp, hadd]
    constructor
    · intro hout
      rw [if_pos hout]
    · intro hlo hhi
      rw [if_neg (by omega)]
      unfold eatLookup
      rw [if_pos (by omega)]
  · intro hp
    exact export_name_branch img mapped name ed eatAddr hloc hp

/-- Witness for C4: on a concrete mapped export image with ordinal base 3
and four functions, the ordinal input 5 resolves to function-table entry 2
holding 999, and the out-of-range ordinal input 9 is not-found. -/
theorem get_export_rva_ordinal_spec_witness :
    get_export_rva imgC4 true [5, 0, 0, 0] = PERes.ok 999 ∧
    get_export_rva imgC4 true [9, 0, 0, 0] = PERes.err := by
  have h := get_export_rva_ordinal_spec imgC4 true [5, 0, 0, 0] edSmall 500
    (by decide) (by decide)
  have h2 := get_export_rva_ordinal_spec imgC4 true [9, 0, 0, 0] edSmall 500
    (by decide) (by decide)
  exact ⟨((h.1 (by decide)).2 (by decide) (by decide)).trans (by decide),
    (h2.1 (by decide)).1 (by decide)⟩

lemma leBytes4_eval (m : Nat) (hm : m < 65536) :
    leU32 (leBytes4 m) = m ∧ leU16 (leBytes4 m) = m := by
  unfold leU32 leU16 leBytes4
  simp only [List.getD_cons_zero, List.getD_cons_succ]
  omega

/-- C5: when a name scan succeeds at index i with hint h, resolving the
exact name and resolving the true numeric ordinal Base + h yield the same
virtual offset: both return function-address-table entry h. -/
theorem export_name_ordinal_agree (img : PEImage) (mapped : Bool) (n : List Nat)
    (ed : IMAGE_EXPORT_DIRECTORY) (eatAddr namesOff hintsOff i fi : Nat)
    (hloc : locateExportDirectory img mapped = PERes.ok (ed, eatAddr))
    (hprobe : leU32 n / 65536 ≠ 0)
    (hnames : translate_offset img mapped ed.AddressOfNames = PERes.ok namesOff)
    (hi : i < ed.NumberOfNames)
    (hpre : ∀ j, j < i → ∃ f,
      translate_offset img mapped
          (img.u32At (img.baseAddress + namesOff + 4 * j)) = PERes.ok f ∧
      compare_strs_as_bytes n (readName img (img.baseAddress + f)) true = false)
    (hstri : translate_offset img mapped
        (img.u32At (img.baseAddress + namesOff + 4 * i)) = PERes.ok fi)
    (hmatch : compare_strs_as_bytes n (readName img (img.baseAddress + fi)) true = true)
    (hhints : translate_offset img mapped ed.AddressOfNameOrdinals = PERes.ok hintsOff)
    (hh : img.u16At (img.baseAddress + hintsOff + 2 * i) < ed.NumberOfFunctions)
    (hord : ed.Base + img.u16At (img.baseAddress + hintsOff + 2 * i) < 65536)
    (hnowrap : ed.Base + ed.NumberOfFunctions < U32_MOD) :
    get_export_rva img mapped n =
      PERes.ok (img.u32At (eatAddr + 4 * img.u16At (img.baseAddress + hintsOff + 2 * i))) ∧
    get_export_rva img mapped
        (leBytes4 (ed.Base + img.u16At (img.baseAddress + hintsOff + 2 * i))) =
      PERes.ok (img.u32At (eatAddr + 4 * img.u16At (img.baseAddress + hintsOff + 2 * i))) := by
  constructor
  · have hbranch := export_name_branch img mapped n ed eatAddr hloc hprobe
    have hres := export_name_scan_result img mapped n ed eatAddr namesOff hintsOff i fi
      hnames hi hpre hstri hmatch hhints
    rw [hbranch, hres]
    unfold eatLookup
    rw [if_pos hh]
  · have h32 := (leBytes4_eval _ hord).1
    have h16 := (leBytes4_eval _ hord).2
    have hok := export_ordinal_branch img mapped
      (leBytes4 (ed.Base + img.u16At (img.baseAddress + hintsOff + 2 * i)))
      ed eatAddr hloc (by rw [h32]; exact Nat.div_eq_of_lt hord)
    rw [hok, h16, u32add_eq_of_lt hnowrap, if_neg (by omega), Nat.add_sub_cancel_left]
    unfold eatLookup
    rw [if_pos hh]

/-- Witness for C5 on a concrete mapped export image: the name ABCD matches
at index 1 with hint 2, so resolving ABCD and resolving ordinal 5 (base 3
plus hint 2, encoded little-endian) both return function-table entry 2,
which holds 999. -/
theorem export_name_ordinal_agree_witness :
    get_export_rva imgC5 true [65, 66, 67, 68] = PERes.ok 999 ∧
    get_export_rva imgC5 true [5, 0, 0, 0] = PERes.ok 999 := by
  have h := export_name_ordinal_agree imgC5 true [65, 66, 67, 68] edSmall 500 600 700 1 90
    (by decide) (by decide) (by decide) (by decide)
    (fun j hj => by
      have hj0 : j = 0 := by omega
      subst hj0
      exact ⟨80, by decide, by decide⟩)
    (by decide) (by decide) (by decide) (by decide) (by decide) (by decide)
  refine ⟨h.1.trans (by decide), ?_⟩
  have h2 := h.2
  rw [show edSmall.Base + imgC5.u16At (imgC5.baseAddress + 700 + 2 * 1) = 5 from by decide] at h2
  rw [show leBytes4 5 = [5, 0, 0, 0] from by decide] at h2
  exact h2.trans (by decide)

lemma xorBytes_involution : ∀ n key : List Nat, n.length ≤ key.length →
    xorBytes (xorBytes n key) key = n := by
  intro n
  induction n with
  | nil => intro key _; rfl
  | cons a rest ih =>
    intro key hlen
    cases key with
    | nil => simp at hlen
    | cons b kb =>
      simp only [xorBytes, List.zipWith_cons_cons, List.cons.injEq]
      constructor
      · exact Nat.xor_cancel_right b a
      · exact ih kb (by simpa using hlen)

lemma compare_xor_eq_compare (n key cand : List Nat) (hlen : n.length ≤ key.length) :
    compare_xor_str_and_str_bytes (xorBytes n key) cand key =
      compare_strs_as_bytes n cand true := by
  unfold compare_xor_str_and_str_bytes compare_strs_as_bytes
  rw [xorBytes_involution n key hlen]

lemma xorLoop_eq_nameLoop (img : PEImage) (mapped : Bool) (ed : IMAGE_EXPORT_DIRECTORY)
    (eatAddr namesAddr : Nat) (n key : List Nat) (hlen : n.length ≤ key.length) :
    ∀ r i, getExportRvaXorLoop img mapped ed eatAddr namesAddr (xorBytes n key) key i r =
      getExportRvaLoop img mapped ed eatAddr namesAddr n i r := by
  intro r
  induction r with
  | zero => intro i; rfl
  | succ r ih =>
    intro i
    simp only [getExportRvaXorLoop, getExportRvaLoop]
    congr 1
    funext strOff
    rw [compare_xor_eq_compare n key (readName img (img.baseAddress + strOff)) hlen, ih]

/-- C6: resolving through the masked-name path with the masked form of a
name under a key (covering the whole name) gives exactly the outcome of the
exact-name scan path of the plain resolver on that name, on every image; in
particular, whenever the plain resolver takes its name-scan branch, the two
functions agree completely. -/
theorem xor_resolution_matches_name_scan (img : PEImage) (mapped : Bool)
    (n key : List Nat) (hlen : n.length ≤ key.length) :
    get_export_rva_xor_string img mapped (xorBytes n key) key =
      PERes.bind (locateExportDirectory img mapped) (fun p =>
        PERes.bind (translate_offset img mapped p.1.AddressOfNames) (fun namesOff =>
          getExportRvaLoop img mapped p.1 p.2 (img.baseAddress + namesOff) n 0
            p.1.NumberOfNames)) ∧
    (leU32 n / 65536 ≠ 0 →
      get_export_rva_xor_string img mapped (xorBytes n key) key =
        get_export_rva img mapped n) := by
  have hmain : get_export_rva_xor_string img mapped (xorBytes n key) key =
      PERes.bind (locateExportDirectory img mapped) (fun p =>
        PERes.bind (translate_offset img mapped p.1.AddressOfNames) (fun namesOff =>
          getExportRvaLoop img mapped p.1 p.2 (img.baseAddress + namesOff) n 0
            p.1.NumberOfNames)) := by
    unfold get_export_rva_xor_string
    congr 1
    funext p
    congr 1
    funext namesOff
    exact xorLoop_eq_nameLoop img mapped p.1 p.2 (img.baseAddress + namesOff) n key hlen
      p.1.NumberOfNames 0
  refine ⟨hmain, ?_⟩
  intro hprobe
  rw [hmain]
  simp only [get_export_rva]
  congr 1
  funext p
  rw [if_neg hprobe]

/-- Witness for C6: on a concrete mapped export image, resolving the masked
form of ABCD under the key 1,1,1,1 equals resolving ABCD through the plain
resolver, both returning function-table entry 2 holding 999. -/
theorem xor_resolution_matches_name_scan_witness :
    get_export_rva_xor_string imgC6 true [64, 67, 66, 69] [1, 1, 1, 1] =
      get_export_rva imgC6 true [65, 66, 67, 68] ∧
    get_export_rva_xor_string imgC6 true [64, 67, 66, 69] [1, 1, 1, 1] = PERes.ok 999 := by
  have h := (xor_resolution_matches_name_scan imgC6 true [65, 66, 67, 68] [1, 1, 1, 1]
    (by decide)).2 (by decide)
  rw [show xorBytes [65, 66, 67, 68] [1, 1, 1, 1] = [64, 67, 66, 69] from by decide] at h
  exact ⟨h, h.trans (by decide)⟩

/-- C9: when a name scan matches at index i and the 16-bit hint read there
is at least NumberOfFunctions, the hint indexes the function-address table
of declared length NumberOfFunctions with no bounds check, so the access
falls outside the declared table (the abort outcome of the model) instead
of producing the not-found outcome of the bounds-checked ordinal path; the
masked-name scan behaves identically. -/
theorem name_scan_hint_unchecked (img : PEImage) (mapped : Bool) (n : List Nat)
    (ed : IMAGE_EXPORT_DIRECTORY) (eatAddr namesOff hintsOff i fi : Nat)
    (hloc : locateExportDirectory img mapped = PERes.ok (ed, eatAddr))
    (hprobe : leU32 n / 65536 ≠ 0)
    (hnames : translate_offset img mapped ed.AddressOfNames = PERes.ok namesOff)
    (hi : i < ed.NumberOfNames)
    (hpre : ∀ j, j < i → ∃ f,
      translate_offset img mapped
          (img.u32At (img.baseAddress + namesOff + 4 * j)) = PERes.ok f ∧
      compare_strs_as_bytes n (readName img (img.baseAddress + f)) true = false)
    (hstri : translate_offset img mapped
        (img.u32At (img.baseAddress + namesOff + 4 * i)) = PERes.ok fi)
    (hmatch : compare_strs_as_bytes n (readName img (img.baseAddress + fi)) true = true)
    (hhints : translate_offset img mapped ed.AddressOfNameOrdinals = PERes.ok hintsOff)
    (hoob : ed.NumberOfFunctions ≤ img.u16At (img.baseAddress + hintsOff + 2 * i)) :
    get_export_rva img mapped n = PERes.panic ∧
    get_export_rva img mapped n ≠ PERes.err ∧
    (∀ key, n.length ≤ key.length →
      get_export_rva_xor_string img mapped (xorBytes n key) key = PERes.panic) := by
  have hlookup : eatLookup img eatAddr ed.NumberOfFunctions
      (img.u16At (img.baseAddress + hintsOff + 2 * i)) = PERes.panic := by
    unfold eatLookup
    rw [if_neg (by omega)]
  have hname : PERes.bind (translate_offset img mapped ed.AddressOfNames) (fun nOff =>
      getExportRvaLoop img mapped ed eatAddr (img.baseAddress + nOff) n 0
        ed.NumberOfNames) = PERes.panic :=
    (export_name_scan_result img mapped n ed eatAddr namesOff hintsOff i fi
      hnames hi hpre hstri hmatch hhints).trans hlookup
  have hfull : get_export_rva img mapped n = PERes.panic :=
    (export_name_branch img mapped n ed eatAddr hloc hprobe).trans hname
  refine ⟨hfull, by rw [hfull]; decide, ?_⟩
  intro key hk
  unfold get_export_rva_xor_string
  rw [hloc]
  simp only [PERes.bind]
  show PERes.bind (translate_offset img mapped ed.AddressOfNames) (fun nOff =>
      getExportRvaXorLoop img mapped ed eatAddr (img.baseAddress + nOff)
        (xorBytes n key) key 0 ed.NumberOfNames) = PERes.panic
  have hfun : (fun nOff : Nat =>
      getExportRvaXorLoop img mapped ed eatAddr (img.baseAddress + nOff)
        (xorBytes n key) key 0 ed.NumberOfNames)
      = (fun nOff : Nat =>
      getExportRvaLoop img mapped ed eatAddr (img.baseAddress + nOff) n 0
        ed.NumberOfNames) :=
    funext (fun nOff => xorLoop_eq_nameLoop img mapped ed eatAddr
      (img.baseAddress + nOff) n key hk ed.NumberOfNames 0)
  rw [hfun]
  exact hname

/-- Witness for C9: on a concrete mapped export image whose hint at the
matched name index is 9 while only 4 functions are declared, resolving ABCD
aborts with the out-of-bounds access outcome, and so does resolving its
masked form under the key 1,1,1,1. -/
theorem name_scan_hint_unchecked_witness :
    get_export_rva imgC9 true [65, 66, 67, 68] = PERes.panic ∧
    get_export_rva_xor_string imgC9 true [64, 67, 66, 69] [1, 1, 1, 1] = PERes.panic := by
  have h := name_scan_hint_unchecked imgC9 true [65, 66, 67, 68] edSmall 500 600 700 1 90
    (by decide) (by decide) (by decide) (by decide)
    (fun j hj => by
      have hj0 : j = 0 := by omega
      subst hj0
      exact ⟨80, by decide, by decide⟩)
    (by decide) (by decide) (by decide) (by decide)
  refine ⟨h.1, ?_⟩
  have h3 := h.2.2 [1, 1, 1, 1] (by decide)
  rw [show xorBytes [65, 66, 67, 68] [1, 1, 1, 1] = [64, 67, 66, 69] from by decide] at h3
  exact h3

lemma grde_none1 (img : PEImage) (rootAddr id : Nat)
    (h1 : get_entry_offset_by_id img rootAddr RT_RCDATA = none) :
    get_resource_data_entry img rootAddr id = none := by
  unfold get_resource_data_entry
  rw [h1]
  rfl

lemma grde_none2 (img : PEImage) (rootAddr id o1 : Nat)
    (h1 : get_entry_offset_by_id img rootAddr RT_RCDATA = some o1)
    (h2 : get_entry_offset_by_id img (rootAddr + Nat.land o1 0x7FFFFFFF) id = none) :
    get_resource_data_entry img rootAddr id = none := by
  unfold get_resource_data_entry
  simp only [h1, Option.some_bind, h2, Option.none_bind]

lemma grde_some (img : PEImage) (rootAddr id o1 o2 : Nat)
    (h1 : get_entry_offset_by_id img rootAddr RT_RCDATA = some o1)
    (h2 : get_entry_offset_by_id img (rootAddr + Nat.land o1 0x7FFFFFFF) id = some o2) :
    get_resource_data_entry img rootAddr id =
      some (rootAddr + (img.resEntryAt (rootAddr + Nat.land o2 0x7FFFFFFF
        + RESOURCE_DIRECTORY_TABLE_SIZE)).OffsetToData) := by
  unfold get_resource_data_entry
  simp only [h1, Option.some_bind, h2]

/-- C8: extract walks exactly three levels.  With the root directory
located, a failed id search for the raw-data type at level 1 or for the
requested id at level 2 yields not-found, the level-1 and level-2 offsets
are taken relative to the root with their top bit cleared, the level-3
language directory contributes its first entry unconditionally, and a
failed translation of the leaf data offset yields not-found; otherwise the
byte range of the leaf is returned. -/
theorem get_pe_resource_walk_spec (img : PEImage) (mapped : Bool) (id rootOff : Nat)
    (hroot : translate_offset img mapped
        (img.dataDirectory IMAGE_DIRECTORY_ENTRY_RESOURCE).VirtualAddress = PERes.ok rootOff) :
    (get_entry_offset_by_id img (img.baseAddress + rootOff) RT_RCDATA = none →
      get_pe_resource img mapped id = PERes.err) ∧
    (∀ o1, get_entry_offset_by_id img (img.baseAddress + rootOff) RT_RCDATA = some o1 →
      (get_entry_offset_by_id img
          (img.baseAddress + rootOff + Nat.land o1 0x7FFFFFFF) id = none →
        get_pe_resource img mapped id = PERes.err) ∧
      (∀ o2, get_entry_offset_by_id img
          (img.baseAddress + rootOff + Nat.land o1 0x7FFFFFFF) id = some o2 →
        (translate_offset img mapped (img.resDataEntryAt (img.baseAddress + rootOff +
            (img.resEntryAt (img.baseAddress + rootOff + Nat.land o2 0x7FFFFFFF
              + RESOURCE_DIRECTORY_TABLE_SIZE)).OffsetToData)).DataRVA = PERes.err →
          get_pe_resource img mapped id = PERes.err) ∧
        (∀ d, translate_offset img mapped (img.resDataEntryAt (img.baseAddress + rootOff +
            (img.resEntryAt (img.baseAddress + rootOff + Nat.land o2 0x7FFFFFFF
              + RESOURCE_DIRECTORY_TABLE_SIZE)).OffsetToData)).DataRVA = PERes.ok d →
          get_pe_resource img mapped id =
            PERes.ok (img.baseAddress + d,
              (img.resDataEntryAt (img.baseAddress + rootOff +
                (img.resEntryAt (img.baseAddress + rootOff + Nat.land o2 0x7FFFFFFF
                  + RESOURCE_DIRECTORY_TABLE_SIZE)).OffsetToData)).DataSize)))) := by
  have hopen_none : get_resource_data_entry img (img.baseAddress + rootOff) id = none →
      get_pe_resource img mapped id = PERes.err := by
    intro hr
    unfold get_pe_resource
    simp only [hroot, PERes.bind]
    rw [hr]
  have hopen_some : ∀ entryAddr,
      get_resource_data_entry img (img.baseAddress + rootOff) id = some entryAddr →
      get_pe_resource img mapped id =
        PERes.bind (translate_offset img mapped
            (img.resDataEntryAt entryAddr).DataRVA) (fun dataOff =>
          PERes.ok (img.baseAddress + dataOff,
            (img.resDataEntryAt entryAddr).DataSize)) := by
    intro entryAddr hr
    unfold get_pe_resource
    simp only [hroot, PERes.bind]
    rw [hr]
  refine ⟨?_, ?_⟩
  · intro h1
    exact hopen_none (grde_none1 img _ id h1)
  · intro o1 h1
    refine ⟨?_, ?_⟩
    · intro h2
      exact hopen_none (grde_none2 img _ id o1 h1 h2)
    · intro o2 h2
      refine ⟨?_, ?_⟩
      · intro ht
        rw [hopen_some _ (grde_some img _ id o1 o2 h1 h2), ht]
        rfl
      · intro d ht
        rw [hopen_some _ (grde_some img _ id o1 o2 h1 h2), ht]
        rfl

/-- Witness for C8 on a concrete mapped resource image: the raw-data type
entry (offset with subdirectory bit set, cleared to 80), the id entry for 7
(offset 120), and the first language entry lead to the data entry at offset
4200 holding offset 300 and size 16, which extract returns. -/
theorem get_pe_resource_walk_spec_witness :
    get_pe_resource imgC8 true 7 = PERes.ok (300, 16) := by
  have h := get_pe_resource_walk_spec imgC8 true 7 4000 (by decide)
  have h2 := (h.2 2147483728 (by decide)).2 120 (by decide)
  have h3 := h2.2 300 (by decide)
  exact h3.trans (by decide)

/-- C10: at the language level the walk takes the entry right after the
table header without consulting the declared entry counts, and uses its
offset without clearing the top bit: the result is always present, when
both declared counts are zero the entry read starts at or past the declared
extent of the table, and a top-bit-set offset is reused unmasked
(differing from its masked form). -/
theorem resource_lang_level_unchecked (img : PEImage) (rootAddr id o1 o2 : Nat)
    (h1 : get_entry_offset_by_id img rootAddr RT_RCDATA = some o1)
    (h2 : get_entry_offset_by_id img (rootAddr + Nat.land o1 0x7FFFFFFF) id = some o2) :
    get_resource_data_entry img rootAddr id =
      some (rootAddr + (img.resEntryAt (rootAddr + Nat.land o2 0x7FFFFFFF
        + RESOURCE_DIRECTORY_TABLE_SIZE)).OffsetToData) ∧
    ((img.tableAt (rootAddr + Nat.land o2 0x7FFFFFFF)).NumberOfNameEntries = 0 →
      (img.tableAt (rootAddr + Nat.land o2 0x7FFFFFFF)).NumberOfIDEntries = 0 →
      resourceTableExtent (img.tableAt (rootAddr + Nat.land o2 0x7FFFFFFF))
        ≤ RESOURCE_DIRECTORY_TABLE_SIZE) ∧
    (0x80000000 ≤ (img.resEntryAt (rootAddr + Nat.land o2 0x7FFFFFFF
        + RESOURCE_DIRECTORY_TABLE_SIZE)).OffsetToData →
      rootAddr + (img.resEntryAt (rootAddr + Nat.land o2 0x7FFFFFFF
        + RESOURCE_DIRECTORY_TABLE_SIZE)).OffsetToData ≠
      rootAddr + Nat.land ((img.resEntryAt (rootAddr + Nat.land o2 0x7FFFFFFF
        + RESOURCE_DIRECTORY_TABLE_SIZE)).OffsetToData) 0x7FFFFFFF) := by
  refine ⟨grde_some img rootAddr id o1 o2 h1 h2, ?_, ?_⟩
  · intro ha hb
    simp only [resourceTableExtent, RESOURCE_DIRECTORY_TABLE_SIZE,
      RESOURCE_DIRECTORY_ENTRY_SIZE, ha, hb]
    omega
  · intro hbit
    have hle : Nat.land ((img.resEntryAt (rootAddr + Nat.land o2 0x7FFFFFFF
        + RESOURCE_DIRECTORY_TABLE_SIZE)).OffsetToData) 0x7FFFFFFF ≤ 0x7FFFFFFF :=
      Nat.and_le_right
    omega

/-- Witness for C10 on a concrete image whose language table declares zero
entries and whose first language-entry slot carries a top-bit-set offset:
the walk still yields a data-entry address, the slot it read starts at the
declared extent of the zero-entry table, and the unmasked address differs
from the masked one. -/
theorem resource_lang_level_unchecked_witness :
    get_resource_data_entry imgC10 4000 7 = some 2147487748 ∧
    resourceTableExtent (imgC10.tableAt (4000 + Nat.land 120 0x7FFFFFFF)) ≤
      RESOURCE_DIRECTORY_TABLE_SIZE ∧
    4000 + 2147483748 ≠ 4000 + Nat.land 2147483748 0x7FFFFFFF := by
  have h := resource_lang_level_unchecked imgC10 4000 7 2147483728 120 (by decide) (by decide)
  refine ⟨h.1.trans (by decide), h.2.1 (by decide) (by decide), ?_⟩
  have h3 := h.2.2 (by decide)
  rw [show (imgC10.resEntryAt (4000 + Nat.land 120 0x7FFFFFFF
    + RESOURCE_DIRECTORY_TABLE_SIZE)).OffsetToData = 2147483748 from by decide] at h3
  exact h3
